import Mathlib

/-!
Shallow embedding of `src/graph.rs` (crate `graph-rs`): an adjacency-list
graph with directed/undirected edge insertion and per-vertex typed
property maps, together with correctness theorems about its operations.

Rust `HashMap`s are modelled as association lists with insert-or-replace;
fallible indexing (`Vec` index panics) is modelled with `Except`, where an
`Except.error` carries the graph state at the moment of the panic.
-/

/-- Model of Rust's `HashMap::insert` (insert-or-replace, keys unique):
remove any existing entry for the key, then add the new binding. -/
def propsInsert {α : Type} (m : List (String × α)) (k : String) (v : α) :
    List (String × α) :=
  m.filter (fun p => p.1 != k) ++ [(k, v)]

/-- Lookup in the association-list model of `HashMap`. -/
def propsFind {α : Type} (m : List (String × α)) (k : String) : Option α :=
  (m.find? (fun p => p.1 == k)).map Prod.snd

/-- Number of entries stored under key `k` in the association-list model. -/
def propsCount {α : Type} (m : List (String × α)) (k : String) : Nat :=
  (m.filter (fun p => p.1 == k)).length

/-- Embedding of `struct Vertex` from `src/graph.rs`. -/
structure Vertex where
  id : Nat
  string_props : List (String × String)
  int_props : List (String × Int)
  float_props : List (String × Float)

/-- `Vertex::new(id)`: a vertex with the given id and three empty maps. -/
def Vertex.new (id : Nat) : Vertex := ⟨id, [], [], []⟩

/-- `Vertex::add_string_props`. -/
def Vertex.add_string_props (v : Vertex) (label value : String) : Vertex :=
  { v with string_props := propsInsert v.string_props label value }

/-- `Vertex::add_int_props`. -/
def Vertex.add_int_props (v : Vertex) (label : String) (value : Int) : Vertex :=
  { v with int_props := propsInsert v.int_props label value }

/-- `Vertex::add_float_props`. -/
def Vertex.add_float_props (v : Vertex) (label : String) (value : Float) : Vertex :=
  { v with float_props := propsInsert v.float_props label value }

/-- Embedding of `struct Graph` from `src/graph.rs`. -/
structure Graph where
  is_directed : Bool
  vertices : List Vertex
  adjacent : List (List Nat)

/-- `Graph::new(is_directed)`: empty graph with the given directedness. -/
def Graph.new (is_directed : Bool) : Graph := ⟨is_directed, [], []⟩

/-- `Graph::num_vertices`. -/
def Graph.num_vertices (g : Graph) : Nat := g.vertices.length

/-- `Graph::num_edges`: sum of the lengths of all adjacency lists. -/
def Graph.num_edges (g : Graph) : Nat := (g.adjacent.map List.length).sum

/-- `Graph::get_vertex`: checked access, `Vec::get`. -/
def Graph.get_vertex (g : Graph) (id : Nat) : Option Vertex := g.vertices[id]?

/-- `Graph::get_adjacent_vertices`: checked access, `Vec::get`. -/
def Graph.get_adjacent_vertices (g : Graph) (id : Nat) : Option (List Nat) :=
  g.adjacent[id]?

/-- `Graph::add_vertex`: append a fresh vertex (id = current count) and a
matching empty adjacency list; return the new id. -/
def Graph.add_vertex (g : Graph) : Graph × Nat :=
  let n := g.num_vertices
  ({ g with vertices := g.vertices ++ [Vertex.new n],
            adjacent := g.adjacent ++ [[]] }, n)

/-- `self.adjacent[i].push(x)` once the index `i` is known in range. -/
def pushAdj (l : List (List Nat)) (i x : Nat) : List (List Nat) :=
  l.set i (l.getD i [] ++ [x])

/-- `Graph::add_edge`: `self.adjacent[from].push(to)` and, if undirected,
`self.adjacent[to].push(from)`.  Unchecked `Vec` indexing panics when out of
range; an `Except.error` carries the graph state at the moment of the panic
(the first push has already happened when the second index fails). -/
def Graph.add_edge (g : Graph) (f t : Nat) : Except Graph Graph :=
  if f < g.adjacent.length then
    if g.is_directed then
      Except.ok { g with adjacent := pushAdj g.adjacent f t }
    else if t < (pushAdj g.adjacent f t).length then
      Except.ok { g with adjacent := pushAdj (pushAdj g.adjacent f t) t f }
    else Except.error { g with adjacent := pushAdj g.adjacent f t }
  else Except.error g

/-- Vertex ids are consecutively `i, i+1, ...` along the list. -/
def idsFrom : Nat → List Vertex → Bool
  | _, [] => true
  | i, v :: vs => v.id == i && idsFrom (i + 1) vs

/-- The representation invariant of `Graph`: the vertex and adjacency
vectors have the same length, and `vertices[i].id == i` for every index. -/
def Graph.WF (g : Graph) : Prop :=
  g.vertices.length = g.adjacent.length ∧ idsFrom 0 g.vertices = true

instance (g : Graph) : Decidable g.WF :=
  inferInstanceAs (Decidable (_ ∧ _))

/-- Iterate `add_vertex` `n` times (discarding the returned ids). -/
def Graph.addVertexN (g : Graph) : Nat → Graph
  | 0 => g
  | n + 1 => ((g.addVertexN n).add_vertex).1

/-- Graphs reachable through the public API: `Graph::new`, `add_vertex`,
and `add_edge` called with valid (in-range) vertex ids. -/
inductive Reachable : Graph → Prop
  | new (d : Bool) : Reachable (Graph.new d)
  | step_add_vertex (g : Graph) : Reachable g → Reachable (g.add_vertex).1
  | step_add_edge (g g' : Graph) (a b : Nat) : Reachable g →
      a < g.num_vertices → b < g.num_vertices →
      g.add_edge a b = Except.ok g' → Reachable g'

/-- The body of `impl Display for Graph`: one row per vertex, where the
adjacency list is fetched by `get_adjacent_vertices(v.id).unwrap()`; a
failed unwrap is modelled as `none`. -/
def displayRows (g : Graph) : List Vertex → Option String
  | [] => some ""
  | v :: vs =>
    match g.get_adjacent_vertices v.id, displayRows g vs with
    | some ns, some rest =>
        some (toString v.id ++ " => [" ++
          String.join (ns.map (fun n => toString n ++ ", ")) ++ "],\n" ++ rest)
    | _, _ => none

/-- `impl Display for Graph`: `none` exactly when some unwrap panics. -/
def Graph.display (g : Graph) : Option String :=
  (displayRows g g.vertices).map (fun body =>
    (if g.is_directed then "DirectedGraph(" else "UndirectedGraph(") ++
      body ++ ")")

/-- Effect of a valid undirected `add_edge(a, b)` (claim C1): success, the
edge count grows by 2, `b` joins `a`'s adjacency list and `a` joins `b`'s,
and for distinct endpoints each list is exactly the old list with the new
neighbour appended. -/
def undirectedAddEdgePost (g : Graph) (a b : Nat) : Prop :=
  ∃ g', g.add_edge a b = Except.ok g' ∧
    g'.num_edges = g.num_edges + 2 ∧
    (∃ la, g'.get_adjacent_vertices a = some la ∧ b ∈ la) ∧
    (∃ lb, g'.get_adjacent_vertices b = some lb ∧ a ∈ lb) ∧
    (a ≠ b →
      g'.get_adjacent_vertices a =
        (g.get_adjacent_vertices a).map (fun l => l ++ [b]) ∧
      g'.get_adjacent_vertices b =
        (g.get_adjacent_vertices b).map (fun l => l ++ [a]))

/-- Effect of a valid directed `add_edge(a, b)` (claim C2): success, `b` is
appended to `a`'s adjacency list, the edge count grows by 1, and every
adjacency list other than `a`'s is unchanged. -/
def directedAddEdgePost (g : Graph) (a b : Nat) : Prop :=
  ∃ g', g.add_edge a b = Except.ok g' ∧
    g'.get_adjacent_vertices a =
      (g.get_adjacent_vertices a).map (fun l => l ++ [b]) ∧
    g'.num_edges = g.num_edges + 1 ∧
    ∀ i, i ≠ a → g'.get_adjacent_vertices i = g.get_adjacent_vertices i

/-- Effect of the `k`-th `add_vertex` call on a fresh graph (claim C3),
with `n = k - 1` prior calls already made: the call returns `n`, the count
becomes `n + 1`, the new adjacency list is empty, and the new vertex's id
is its own index. -/
def addVertexPost (d : Bool) (n : Nat) : Prop :=
  (((Graph.new d).addVertexN n).add_vertex).2 = n ∧
  ((((Graph.new d).addVertexN n).add_vertex).1).num_vertices = n + 1 ∧
  ((((Graph.new d).addVertexN n).add_vertex).1).get_adjacent_vertices n = some [] ∧
  ∃ v, ((((Graph.new d).addVertexN n).add_vertex).1).get_vertex n = some v ∧
    v.id = n

/-- Failure behaviour of `add_edge` with an out-of-range endpoint
(claim C5, amended): an out-of-range `from` fails before any mutation; an
undirected call with valid `from` and out-of-range `to` fails only after
the first push; a directed call never bounds-checks `to` and succeeds
whenever `from` is valid. -/
def addEdgeFailurePost (g : Graph) (f t : Nat) : Prop :=
  (g.num_vertices ≤ f → g.add_edge f t = Except.error g) ∧
  (f < g.num_vertices → g.is_directed = false → g.num_vertices ≤ t →
    g.add_edge f t = Except.error { g with adjacent := pushAdj g.adjacent f t }) ∧
  (f < g.num_vertices → g.is_directed = true →
    ∃ g', g.add_edge f t = Except.ok g')

/-- Behaviour of the two checked accessors (claim C6): `none` out of range,
and the stored entry at position `id` otherwise. -/
def accessorPost (g : Graph) (id : Nat) : Prop :=
  (g.num_vertices ≤ id →
    g.get_vertex id = none ∧ g.get_adjacent_vertices id = none) ∧
  (id < g.num_vertices →
    g.get_vertex id = some (g.vertices.getD id (Vertex.new 0)) ∧
    g.get_adjacent_vertices id = some (g.adjacent.getD id []))

/-- Effect of calling `add_edge(a, b)` twice (claim C8): both calls
succeed, `a`'s adjacency list gains (at least) two identical entries for
`b`, and for distinct endpoints the lists are exactly the old ones with
the duplicated neighbours appended. -/
def addEdgeTwicePost (g : Graph) (a b : Nat) : Prop :=
  ∃ g1 g2, g.add_edge a b = Except.ok g1 ∧ g1.add_edge a b = Except.ok g2 ∧
    (∀ la la2, g.get_adjacent_vertices a = some la →
      g2.get_adjacent_vertices a = some la2 → la.count b + 2 ≤ la2.count b) ∧
    (a ≠ b →
      g2.get_adjacent_vertices a =
        (g.get_adjacent_vertices a).map (fun l => l ++ [b, b]) ∧
      (g.is_directed = false →
        g2.get_adjacent_vertices b =
          (g.get_adjacent_vertices b).map (fun l => l ++ [a, a])))

/-- Effect of a self-loop `add_edge(a, a)` (claim C9): undirected graphs
append `a` twice to `a`'s own list and count 2 more edges; directed graphs
append it once and count 1 more edge. -/
def selfLoopPost (g : Graph) (a : Nat) : Prop :=
  (g.is_directed = false → ∃ g', g.add_edge a a = Except.ok g' ∧
    g'.get_adjacent_vertices a =
      (g.get_adjacent_vertices a).map (fun l => l ++ [a, a]) ∧
    g'.num_edges = g.num_edges + 2) ∧
  (g.is_directed = true → ∃ g', g.add_edge a a = Except.ok g' ∧
    g'.get_adjacent_vertices a =
      (g.get_adjacent_vertices a).map (fun l => l ++ [a]) ∧
    g'.num_edges = g.num_edges + 1)

/-! ### List helper lemmas -/

/-- In-range `getElem?` is the `getD` value. -/
lemma getElem?_eq_some_getD {α : Type} (l : List α) (i : Nat) (d : α)
    (h : i < l.length) : l[i]? = some (l.getD i d) := by
  rw [List.getElem?_eq_getElem h, List.getD_eq_getElem l d h]

/-- `set` at an in-range index, read back at the same index. -/
lemma getD_set_self {α : Type} (l : List α) (i : Nat) (x d : α)
    (h : i < l.length) : (l.set i x).getD i d = x := by
  rw [List.getD_eq_getElem _ d (by simpa using h)]
  exact List.getElem_set_self (by simpa using h)

/-- `set` leaves every other index unchanged (as a `getD` fact). -/
lemma getD_set_ne {α : Type} (l : List α) (i j : Nat) (x d : α)
    (hij : i ≠ j) : (l.set i x).getD j d = l.getD j d := by
  by_cases hj : j < l.length
  · rw [List.getD_eq_getElem _ d (by simpa using hj), List.getD_eq_getElem _ d hj]
    exact List.getElem_set_ne hij _
  · rw [List.getD_eq_default _ d (by simpa using Nat.le_of_not_lt hj),
      List.getD_eq_default _ d (Nat.le_of_not_lt hj)]

/-- Appending `ts` to the `i`-th inner list adds `ts.length` to the total
length count. -/
lemma sum_map_length_set (l : List (List Nat)) (i : Nat) (ts : List Nat)
    (hi : i < l.length) :
    ((l.set i (l.getD i [] ++ ts)).map List.length).sum =
      (l.map List.length).sum + ts.length := by
  induction l generalizing i with
  | nil => simp at hi
  | cons x xs ih =>
    cases i with
    | zero =>
      simp [List.set, List.getD]
      omega
    | succ n =>
      have hn : n < xs.length := by simpa using hi
      simp only [List.set, List.getD_cons_succ, List.map_cons, List.sum_cons,
        ih n hn]
      omega

/-- `pushAdj` keeps the outer length. -/
lemma length_pushAdj (l : List (List Nat)) (i x : Nat) :
    (pushAdj l i x).length = l.length := by
  simp [pushAdj]

/-- `pushAdj` at an in-range index adds one to the total edge count. -/
lemma sum_map_length_pushAdj (l : List (List Nat)) (i x : Nat)
    (hi : i < l.length) :
    ((pushAdj l i x).map List.length).sum = (l.map List.length).sum + 1 := by
  unfold pushAdj
  exact sum_map_length_set l i [x] hi

/-- Reading back the pushed entry. -/
lemma getD_pushAdj_self (l : List (List Nat)) (i x : Nat) (hi : i < l.length) :
    (pushAdj l i x).getD i [] = l.getD i [] ++ [x] :=
  getD_set_self l i _ [] hi

/-- `pushAdj` leaves the other entries unchanged. -/
lemma getElem?_pushAdj_ne (l : List (List Nat)) (i x j : Nat) (hij : i ≠ j) :
    (pushAdj l i x)[j]? = l[j]? :=
  List.getElem?_set_ne hij

/-- Reading back the pushed entry, `getElem?` form. -/
lemma getElem?_pushAdj_self (l : List (List Nat)) (i x : Nat)
    (hi : i < l.length) :
    (pushAdj l i x)[i]? = some (l.getD i [] ++ [x]) := by
  rw [getElem?_eq_some_getD (pushAdj l i x) i [] (by simpa [length_pushAdj] using hi)]
  rw [getD_pushAdj_self l i x hi]

/-! ### `idsFrom` and invariant lemmas -/

/-- `idsFrom` extends across an append of one vertex with the next id. -/
lemma idsFrom_append (k : Nat) (l : List Vertex) (v : Vertex)
    (h : idsFrom k l = true) (hv : v.id = k + l.length) :
    idsFrom k (l ++ [v]) = true := by
  induction l generalizing k with
  | nil =>
    simp at hv
    simp [idsFrom, hv]
  | cons x xs ih =>
    simp only [idsFrom, Bool.and_eq_true, beq_iff_eq] at h
    simp only [List.cons_append, idsFrom, Bool.and_eq_true, beq_iff_eq]
    refine ⟨h.1, ih (k + 1) h.2 ?_⟩
    simp only [List.length_cons] at hv
    omega

/-- Every member of an `idsFrom k` list has id in `[k, k + length)`. -/
lemma idsFrom_mem_lt (k : Nat) (l : List Vertex) (v : Vertex)
    (h : idsFrom k l = true) (hv : v ∈ l) :
    k ≤ v.id ∧ v.id < k + l.length := by
  induction l generalizing k with
  | nil => simp at hv
  | cons x xs ih =>
    simp only [idsFrom, Bool.and_eq_true, beq_iff_eq] at h
    obtain ⟨h1, h2⟩ := h
    rcases List.mem_cons.mp hv with rfl | hv'
    · simp only [List.length_cons, h1]
      omega
    · have h3 := ih (k + 1) h2 hv'
      simp only [List.length_cons]
      omega

/-- `Graph::new` establishes the representation invariant. -/
lemma wf_new (d : Bool) : (Graph.new d).WF := ⟨rfl, rfl⟩

/-- `add_vertex` preserves the representation invariant. -/
lemma wf_add_vertex (g : Graph) (h : g.WF) : (g.add_vertex).1.WF := by
  obtain ⟨hlen, hids⟩ := h
  constructor
  · simp [Graph.add_vertex, hlen]
  · exact idsFrom_append 0 g.vertices _ hids (by simp [Vertex.new, Graph.num_vertices])

/-- Any successful `add_edge` preserves the representation invariant. -/
lemma wf_add_edge (g g' : Graph) (a b : Nat) (h : g.WF)
    (hok : g.add_edge a b = Except.ok g') : g'.WF := by
  obtain ⟨hlen, hids⟩ := h
  unfold Graph.add_edge at hok
  split at hok
  · split at hok
    · cases hok
      exact ⟨by simpa [length_pushAdj] using hlen, hids⟩
    · split at hok
      · cases hok
        exact ⟨by simpa [length_pushAdj] using hlen, hids⟩
      · cases hok
  · cases hok

/-! ### `add_edge` characterizations -/

/-- `add_edge` on a directed graph with `from` in range: one push. -/
lemma add_edge_directed_eq (g : Graph) (a b : Nat)
    (hd : g.is_directed = true) (ha : a < g.adjacent.length) :
    g.add_edge a b = Except.ok { g with adjacent := pushAdj g.adjacent a b } := by
  unfold Graph.add_edge
  rw [if_pos ha, hd]
  simp

/-- `add_edge` on an undirected graph with both ends in range: two pushes. -/
lemma add_edge_undirected_eq (g : Graph) (a b : Nat)
    (hd : g.is_directed = false) (ha : a < g.adjacent.length)
    (hb : b < g.adjacent.length) :
    g.add_edge a b =
      Except.ok { g with adjacent := pushAdj (pushAdj g.adjacent a b) b a } := by
  unfold Graph.add_edge
  rw [if_pos ha, hd]
  simp only [Bool.false_eq_true, if_false, length_pushAdj]
  rw [if_pos hb]

/-- `pushAdj` leaves the other entries unchanged (as a `getD` fact). -/
lemma getD_pushAdj_ne (l : List (List Nat)) (i x j : Nat) (hij : i ≠ j) :
    (pushAdj l i x).getD j [] = l.getD j [] :=
  getD_set_ne l i j _ [] hij

/-- After the symmetric pushes of an undirected `add_edge(a, b)` with
`a ≠ b`, entry `a` holds its old list with `b` appended. -/
lemma getD_undirected_a (l : List (List Nat)) (a b : Nat)
    (ha : a < l.length) (hab : a ≠ b) :
    (pushAdj (pushAdj l a b) b a).getD a [] = l.getD a [] ++ [b] := by
  rw [getD_pushAdj_ne _ b a a (Ne.symm hab), getD_pushAdj_self l a b ha]

/-- After the symmetric pushes of an undirected `add_edge(a, b)` with
`a ≠ b`, entry `b` holds its old list with `a` appended. -/
lemma getD_undirected_b (l : List (List Nat)) (a b : Nat)
    (hb : b < l.length) (hab : a ≠ b) :
    (pushAdj (pushAdj l a b) b a).getD b [] = l.getD b [] ++ [a] := by
  rw [getD_pushAdj_self _ b a (by simpa [length_pushAdj] using hb),
    getD_pushAdj_ne l a b b hab]

/-- The self-loop case of an undirected `add_edge(a, a)`: entry `a` holds
its old list with `a` appended twice. -/
lemma getD_undirected_diag (l : List (List Nat)) (a : Nat) (ha : a < l.length) :
    (pushAdj (pushAdj l a a) a a).getD a [] = l.getD a [] ++ [a, a] := by
  rw [getD_pushAdj_self _ a a (by simpa [length_pushAdj] using ha),
    getD_pushAdj_self l a a ha, List.append_assoc]
  rfl

/-! ### `add_vertex` iteration lemmas -/

/-- Sizes after `n` iterated `add_vertex` calls. -/
lemma addVertexN_sizes (g : Graph) (n : Nat) :
    (g.addVertexN n).vertices.length = g.vertices.length + n ∧
    (g.addVertexN n).adjacent.length = g.adjacent.length + n := by
  induction n with
  | zero => simp [Graph.addVertexN]
  | succ m ih =>
    simp only [Graph.addVertexN, Graph.add_vertex, List.length_append,
      List.length_cons, List.length_nil]
    omega

/-! ### Property-map lemmas -/

/-- Everything surviving the `!= k` filter has a key other than `k`. -/
lemma mem_filter_ne {α : Type} (m : List (String × α)) (k : String)
    (p : String × α) (hp : p ∈ m.filter (fun q => q.1 != k)) : p.1 ≠ k := by
  have h := (List.mem_filter.mp hp).2
  simpa using h

/-- Filtering for a key right after filtering it away yields nothing. -/
lemma filter_ne_then_eq {α : Type} (m : List (String × α)) (k : String) :
    (m.filter (fun p => p.1 != k)).filter (fun p => p.1 == k) = [] := by
  rw [List.filter_eq_nil_iff]
  intro p hp
  simpa using mem_filter_ne m k p hp

/-- A key that was filtered away is not found. -/
lemma find_filter_ne {α : Type} (m : List (String × α)) (k : String) :
    (m.filter (fun p => p.1 != k)).find? (fun p => p.1 == k) = none := by
  rw [List.find?_eq_none]
  intro p hp
  simpa using mem_filter_ne m k p hp

/-- Inserting the same key twice leaves exactly one entry, holding the
second value (the `HashMap::insert` last-write-wins behaviour). -/
lemma propsInsert_twice {α : Type} (m : List (String × α)) (k : String)
    (v1 v2 : α) :
    propsCount (propsInsert (propsInsert m k v1) k v2) k = 1 ∧
    propsFind (propsInsert (propsInsert m k v1) k v2) k = some v2 := by
  constructor
  · simp only [propsCount, propsInsert, List.filter_append,
      filter_ne_then_eq, List.length_append]
    simp
  · simp only [propsFind, propsInsert, List.find?_append, find_filter_ne]
    simp

/-! ### Reachability and display lemmas -/

/-- Every API-reachable graph satisfies the representation invariant. -/
lemma reachable_wf (g : Graph) (h : Reachable g) : g.WF := by
  induction h with
  | new d => exact wf_new d
  | step_add_vertex g _ ih => exact wf_add_vertex g ih
  | step_add_edge g g' a b _ _ _ hok ih => exact wf_add_edge g g' a b ih hok

/-- The display loop succeeds when every listed vertex id indexes into the
adjacency vector. -/
lemma displayRows_isSome (g : Graph) (l : List Vertex)
    (h : ∀ v ∈ l, v.id < g.adjacent.length) :
    ∃ s, displayRows g l = some s := by
  induction l with
  | nil => exact ⟨"", rfl⟩
  | cons v vs ih =>
    obtain ⟨rest, hrest⟩ := ih (fun u hu => h u (List.mem_cons_of_mem _ hu))
    have hv : g.get_adjacent_vertices v.id =
        some (g.adjacent.getD v.id []) :=
      getElem?_eq_some_getD _ _ _ (h v (List.mem_cons_self _ _))
    exact ⟨_, by unfold displayRows; rw [hv, hrest]⟩

/-! ### Claim theorems -/

/-- C1: For every undirected graph (`is_directed = false`) satisfying the
representation invariant and valid vertex ids `a, b < num_vertices()`,
`add_edge(a, b)` appends `b` to `a`'s adjacency list and `a` to `b`'s
adjacency list (exact appends for `a ≠ b`, membership in general), and
`num_edges()` increases by exactly 2. -/
theorem claim_C1 (g : Graph) (a b : Nat) (hwf : g.WF)
    (hd : g.is_directed = false)
    (ha : a < g.num_vertices) (hb : b < g.num_vertices) :
    undirectedAddEdgePost g a b := by
  obtain ⟨hlen, -⟩ := hwf
  have ha' : a < g.adjacent.length := by unfold Graph.num_vertices at ha; omega
  have hb' : b < g.adjacent.length := by unfold Graph.num_vertices at hb; omega
  refine ⟨_, add_edge_undirected_eq g a b hd ha' hb', ?_, ?_, ?_, ?_⟩
  · show ((pushAdj (pushAdj g.adjacent a b) b a).map List.length).sum = _
    rw [sum_map_length_pushAdj _ b a (by simpa [length_pushAdj] using hb'),
      sum_map_length_pushAdj _ a b ha']
    simp only [Graph.num_edges]
  · by_cases hab : a = b
    · subst hab
      have hread : (pushAdj (pushAdj g.adjacent a a) a a)[a]? =
          some (g.adjacent.getD a [] ++ [a, a]) := by
        rw [getElem?_eq_some_getD _ a [] (by simpa [length_pushAdj] using ha'),
          getD_undirected_diag g.adjacent a ha']
      exact ⟨_, hread, by simp⟩
    · have hread : (pushAdj (pushAdj g.adjacent a b) b a)[a]? =
          some (g.adjacent.getD a [] ++ [b]) := by
        rw [getElem?_eq_some_getD _ a [] (by simpa [length_pushAdj] using ha'),
          getD_undirected_a g.adjacent a b ha' hab]
      exact ⟨_, hread, by simp⟩
  · by_cases hab : a = b
    · subst hab
      have hread : (pushAdj (pushAdj g.adjacent a a) a a)[a]? =
          some (g.adjacent.getD a [] ++ [a, a]) := by
        rw [getElem?_eq_some_getD _ a [] (by simpa [length_pushAdj] using ha'),
          getD_undirected_diag g.adjacent a ha']
      exact ⟨_, hread, by simp⟩
    · have hread : (pushAdj (pushAdj g.adjacent a b) b a)[b]? =
          some (g.adjacent.getD b [] ++ [a]) := by
        rw [getElem?_eq_some_getD _ b [] (by simpa [length_pushAdj] using hb'),
          getD_undirected_b g.adjacent a b hb' hab]
      exact ⟨_, hread, by simp⟩
  · intro hab
    have h1 : g.get_adjacent_vertices a = some (g.adjacent.getD a []) :=
      getElem?_eq_some_getD _ _ _ ha'
    have h2 : g.get_adjacent_vertices b = some (g.adjacent.getD b []) :=
      getElem?_eq_some_getD _ _ _ hb'
    constructor
    · rw [h1]
      show (pushAdj (pushAdj g.adjacent a b) b a)[a]? = _
      rw [getElem?_eq_some_getD _ a [] (by simpa [length_pushAdj] using ha'),
        getD_undirected_a g.adjacent a b ha' hab]
      rfl
    · rw [h2]
      show (pushAdj (pushAdj g.adjacent a b) b a)[b]? = _
      rw [getElem?_eq_some_getD _ b [] (by simpa [length_pushAdj] using hb'),
        getD_undirected_b g.adjacent a b hb' hab]
      rfl

/-- Witness for C1 on a fresh 2-vertex undirected graph and the edge
`(0, 1)`. -/
theorem claim_C1_witness :
    undirectedAddEdgePost ((Graph.new false).addVertexN 2) 0 1 :=
  claim_C1 ((Graph.new false).addVertexN 2) 0 1 (by decide) rfl
    (by decide) (by decide)

/-- C2: For every directed graph satisfying the representation invariant
and valid vertex ids `a ≠ b`, `add_edge(a, b)` appends `b` to `a`'s
adjacency list, increases `num_edges()` by exactly 1, and leaves every
adjacency list other than `a`'s (in particular `b`'s) unchanged. -/
theorem claim_C2 (g : Graph) (a b : Nat) (hwf : g.WF)
    (hd : g.is_directed = true) (ha : a < g.num_vertices)
    (_hb : b < g.num_vertices) (_hab : a ≠ b) :
    directedAddEdgePost g a b := by
  obtain ⟨hlen, -⟩ := hwf
  have ha' : a < g.adjacent.length := by unfold Graph.num_vertices at ha; omega
  refine ⟨_, add_edge_directed_eq g a b hd ha', ?_, ?_, ?_⟩
  · have h1 : g.get_adjacent_vertices a = some (g.adjacent.getD a []) :=
      getElem?_eq_some_getD _ _ _ ha'
    rw [h1]
    show (pushAdj g.adjacent a b)[a]? = _
    rw [getElem?_pushAdj_self g.adjacent a b ha']
    rfl
  · show ((pushAdj g.adjacent a b).map List.length).sum = _
    rw [sum_map_length_pushAdj _ a b ha']
    simp only [Graph.num_edges]
  · intro i hia
    show (pushAdj g.adjacent a b)[i]? = g.adjacent[i]?
    exact getElem?_pushAdj_ne g.adjacent a b i (fun h => hia h.symm)

/-- Witness for C2 on a fresh 2-vertex directed graph and the edge
`(0, 1)`. -/
theorem claim_C2_witness :
    directedAddEdgePost ((Graph.new true).addVertexN 2) 0 1 :=
  claim_C2 ((Graph.new true).addVertexN 2) 0 1 (by decide) rfl
    (by decide) (by decide) (by decide)

/-- C3: For every sequence of `add_vertex` calls on a fresh graph, the
`k`-th call (here `k = n + 1`) returns `k - 1 = n`, and after it
`num_vertices()` equals `k`, the new vertex's adjacency list is empty, and
`get_vertex(new_id)` returns a vertex whose id equals `new_id`. -/
theorem claim_C3 (d : Bool) (n : Nat) : addVertexPost d n := by
  have hv : ((Graph.new d).addVertexN n).vertices.length = n := by
    have h := (addVertexN_sizes (Graph.new d) n).1
    simpa [Graph.new] using h
  have hadj : ((Graph.new d).addVertexN n).adjacent.length = n := by
    have h := (addVertexN_sizes (Graph.new d) n).2
    simpa [Graph.new] using h
  have hnum : ((Graph.new d).addVertexN n).num_vertices = n := hv
  refine ⟨?_, ?_, ?_, ?_⟩
  · exact hv
  · show (((Graph.new d).addVertexN n).vertices ++ [_]).length = n + 1
    simp [hv]
  · show (((Graph.new d).addVertexN n).adjacent ++ [[]])[n]? = some []
    have h := List.getElem?_concat_length
      ((Graph.new d).addVertexN n).adjacent ([] : List Nat)
    rw [hadj] at h
    exact h
  · refine ⟨Vertex.new n, ?_, rfl⟩
    show (((Graph.new d).addVertexN n).vertices ++
      [Vertex.new (((Graph.new d).addVertexN n).num_vertices)])[n]? =
        some (Vertex.new n)
    rw [hnum]
    have h := List.getElem?_concat_length
      ((Graph.new d).addVertexN n).vertices (Vertex.new n)
    rw [hv] at h
    exact h

/-- C4: The representation invariant — `len(vertices) = len(adjacent)` and
`vertices[i].id = i` — holds for `Graph::new` and is preserved by
`add_vertex`, by `add_edge` with valid ids, and by the per-vertex property
mutators (which never touch `id`); the accessors do not mutate at all in
this embedding. -/
theorem claim_C4 :
    (∀ d, (Graph.new d).WF) ∧
    (∀ g : Graph, g.WF → ((g.add_vertex).1).WF) ∧
    (∀ (g g' : Graph) (a b : Nat), g.WF → a < g.num_vertices →
      b < g.num_vertices → g.add_edge a b = Except.ok g' → g'.WF) ∧
    (∀ (v : Vertex) (l x : String), (v.add_string_props l x).id = v.id) ∧
    (∀ (v : Vertex) (l : String) (x : Int), (v.add_int_props l x).id = v.id) ∧
    (∀ (v : Vertex) (l : String) (x : Float), (v.add_float_props l x).id = v.id) :=
  ⟨wf_new, wf_add_vertex,
    fun g g' a b h _ _ hok => wf_add_edge g g' a b h hok,
    fun _ _ _ => rfl, fun _ _ _ => rfl, fun _ _ _ => rfl⟩

/-- Witness for C4: the invariant, checked through the theorem, on a
concrete graph built by the API. -/
theorem claim_C4_witness : (((Graph.new false).add_vertex).1).WF :=
  claim_C4.2.1 (Graph.new false) (by decide)

/-- Counterexample to C5 as stated: on a directed graph with one vertex,
`add_edge(0, 1)` has `to = 1 ≥ num_vertices() = 1` yet does not fail at
all (no bounds check on `to`); and on an undirected one-vertex graph,
`add_edge(0, 1)` does fail, but the panic state already has `1` pushed
onto vertex `0`'s adjacency list, so the failure is not before every
mutation. -/
theorem claim_C5_counterexample :
    (((Graph.new true).add_vertex).1).num_vertices = 1 ∧
    (((Graph.new true).add_vertex).1).add_edge 0 1 =
      Except.ok ⟨true, [Vertex.new 0], [[1]]⟩ ∧
    (((Graph.new false).add_vertex).1).add_edge 0 1 =
      Except.error ⟨false, [Vertex.new 0], [[1]]⟩ :=
  ⟨rfl, rfl, rfl⟩

/-- C5 (amended): an out-of-range `from` makes `add_edge` fail before any
mutation, leaving the graph unchanged; an undirected call with valid
`from` and out-of-range `to` fails only after `to` was appended to
`from`'s list; a directed call never bounds-checks `to` and succeeds
whenever `from` is in range. -/
theorem claim_C5 (g : Graph) (f t : Nat) (hwf : g.WF) :
    addEdgeFailurePost g f t := by
  obtain ⟨hlen, -⟩ := hwf
  refine ⟨?_, ?_, ?_⟩
  · intro hf
    have hf' : ¬ f < g.adjacent.length := by
      unfold Graph.num_vertices at hf; omega
    unfold Graph.add_edge
    rw [if_neg hf']
  · intro hf hd ht
    have hf' : f < g.adjacent.length := by
      unfold Graph.num_vertices at hf; omega
    have ht' : ¬ t < (pushAdj g.adjacent f t).length := by
      unfold Graph.num_vertices at ht
      rw [length_pushAdj]
      omega
    unfold Graph.add_edge
    rw [if_pos hf', hd]
    simp only [Bool.false_eq_true, if_false]
    rw [if_neg ht']
  · intro hf hd
    have hf' : f < g.adjacent.length := by
      unfold Graph.num_vertices at hf; omega
    exact ⟨_, add_edge_directed_eq g f t hd hf'⟩

/-- Witness for C5 (amended) on a one-vertex undirected graph. -/
theorem claim_C5_witness :
    addEdgeFailurePost (((Graph.new false).add_vertex).1) 0 1 :=
  claim_C5 (((Graph.new false).add_vertex).1) 0 1 (by decide)

/-- C6: `get_vertex(id)` and `get_adjacent_vertices(id)` return `none` for
any `id ≥ num_vertices()` (never a panic), and for `id < num_vertices()`
they return the vertex and the adjacency list stored at position `id`. -/
theorem claim_C6 (g : Graph) (id : Nat) (hwf : g.WF) : accessorPost g id := by
  obtain ⟨hlen, -⟩ := hwf
  have hnv : g.num_vertices = g.vertices.length := rfl
  constructor
  · intro h
    exact ⟨List.getElem?_eq_none (by omega),
      List.getElem?_eq_none (by omega)⟩
  · intro h
    exact ⟨getElem?_eq_some_getD _ id _ (by omega),
      getElem?_eq_some_getD _ id _ (by omega)⟩

/-- Witness for C6: the out-of-range id `5` on a one-vertex graph. -/
theorem claim_C6_witness : accessorPost (((Graph.new true).add_vertex).1) 5 :=
  claim_C6 (((Graph.new true).add_vertex).1) 5 (by decide)

/-- C7: On any vertex, inserting the same key twice into any of the three
property maps leaves exactly one entry for the key, holding the second
value (last write wins). -/
theorem claim_C7 (v : Vertex) (k : String) :
    (∀ v1 v2 : String,
      propsCount (((v.add_string_props k v1).add_string_props k v2).string_props) k = 1 ∧
      propsFind (((v.add_string_props k v1).add_string_props k v2).string_props) k = some v2) ∧
    (∀ v1 v2 : Int,
      propsCount (((v.add_int_props k v1).add_int_props k v2).int_props) k = 1 ∧
      propsFind (((v.add_int_props k v1).add_int_props k v2).int_props) k = some v2) ∧
    (∀ v1 v2 : Float,
      propsCount (((v.add_float_props k v1).add_float_props k v2).float_props) k = 1 ∧
      propsFind (((v.add_float_props k v1).add_float_props k v2).float_props) k = some v2) :=
  ⟨fun v1 v2 => propsInsert_twice v.string_props k v1 v2,
   fun v1 v2 => propsInsert_twice v.int_props k v1 v2,
   fun v1 v2 => propsInsert_twice v.float_props k v1 v2⟩

/-- C9: For any graph satisfying the invariant and valid id `a`,
`add_edge(a, a)` appends `a` twice to `a`'s own adjacency list and adds 2
to `num_edges()` when undirected, and appends it once adding 1 when
directed. -/
theorem claim_C9 (g : Graph) (a : Nat) (hwf : g.WF)
    (ha : a < g.num_vertices) : selfLoopPost g a := by
  obtain ⟨hlen, -⟩ := hwf
  have ha' : a < g.adjacent.length := by unfold Graph.num_vertices at ha; omega
  have hget : g.get_adjacent_vertices a = some (g.adjacent.getD a []) :=
    getElem?_eq_some_getD _ _ _ ha'
  constructor
  · intro hd
    refine ⟨_, add_edge_undirected_eq g a a hd ha' ha', ?_, ?_⟩
    · rw [hget]
      show (pushAdj (pushAdj g.adjacent a a) a a)[a]? = _
      rw [getElem?_eq_some_getD _ a [] (by simpa [length_pushAdj] using ha'),
        getD_undirected_diag g.adjacent a ha']
      rfl
    · show ((pushAdj (pushAdj g.adjacent a a) a a).map List.length).sum = _
      rw [sum_map_length_pushAdj _ a a (by simpa [length_pushAdj] using ha'),
        sum_map_length_pushAdj _ a a ha']
      simp only [Graph.num_edges]
  · intro hd
    refine ⟨_, add_edge_directed_eq g a a hd ha', ?_, ?_⟩
    · rw [hget]
      show (pushAdj g.adjacent a a)[a]? = _
      rw [getElem?_pushAdj_self g.adjacent a a ha']
      rfl
    · show ((pushAdj g.adjacent a a).map List.length).sum = _
      rw [sum_map_length_pushAdj _ a a ha']
      simp only [Graph.num_edges]

/-- Witness for C9: a self-loop at vertex `0` of a one-vertex undirected
graph. -/
theorem claim_C9_witness : selfLoopPost (((Graph.new false).add_vertex).1) 0 :=
  claim_C9 (((Graph.new false).add_vertex).1) 0 (by decide) (by decide)

/-- C8: `add_edge` performs no de-duplication: two identical calls add two
identical entries for `b` to `a`'s adjacency list (exactly appended when
`a ≠ b`, with the symmetric duplicates in `b`'s list when undirected). -/
theorem claim_C8 (g : Graph) (a b : Nat) (hwf : g.WF)
    (ha : a < g.num_vertices) (hb : b < g.num_vertices) :
    addEdgeTwicePost g a b := by
  obtain ⟨hlen, -⟩ := hwf
  have ha' : a < g.adjacent.length := by unfold Graph.num_vertices at ha; omega
  have hb' : b < g.adjacent.length := by unfold Graph.num_vertices at hb; omega
  have hget : g.get_adjacent_vertices a = some (g.adjacent.getD a []) :=
    getElem?_eq_some_getD _ _ _ ha'
  have hgetb : g.get_adjacent_vertices b = some (g.adjacent.getD b []) :=
    getElem?_eq_some_getD _ _ _ hb'
  cases hdir : g.is_directed with
  | true =>
    refine ⟨_, _, add_edge_directed_eq g a b hdir ha',
      add_edge_directed_eq _ a b hdir (by simpa [length_pushAdj] using ha'),
      ?_, ?_⟩
    · intro la la2 h1 h2
      rw [hget] at h1
      injection h1 with h1
      have h2' : (pushAdj (pushAdj g.adjacent a b) a b)[a]? =
          some (g.adjacent.getD a [] ++ [b] ++ [b]) := by
        rw [getElem?_eq_some_getD _ a [] (by simpa [length_pushAdj] using ha'),
          getD_pushAdj_self _ a b (by simpa [length_pushAdj] using ha'),
          getD_pushAdj_self _ a b ha']
      dsimp only [Graph.get_adjacent_vertices] at h2
      rw [h2'] at h2
      injection h2 with h2
      subst h1
      subst h2
      simp [List.count_append]
    · intro hab
      constructor
      · rw [hget]
        show (pushAdj (pushAdj g.adjacent a b) a b)[a]? = _
        rw [getElem?_eq_some_getD _ a [] (by simpa [length_pushAdj] using ha'),
          getD_pushAdj_self _ a b (by simpa [length_pushAdj] using ha'),
          getD_pushAdj_self _ a b ha']
        simp [List.append_assoc]
      · intro hfalse
        rw [hdir] at hfalse
        cases hfalse
  | false =>
    have hL1a : a < (pushAdj (pushAdj g.adjacent a b) b a).length := by
      simpa [length_pushAdj] using ha'
    have hL1b : b < (pushAdj (pushAdj g.adjacent a b) b a).length := by
      simpa [length_pushAdj] using hb'
    refine ⟨_, _, add_edge_undirected_eq g a b hdir ha' hb',
      add_edge_undirected_eq _ a b hdir hL1a hL1b, ?_, ?_⟩
    · intro la la2 h1 h2
      rw [hget] at h1
      injection h1 with h1
      subst h1
      by_cases hab : a = b
      · subst hab
        have h2' : (pushAdj (pushAdj (pushAdj (pushAdj g.adjacent a a) a a) a a) a a)[a]? =
            some (g.adjacent.getD a [] ++ [a, a] ++ [a, a]) := by
          rw [getElem?_eq_some_getD _ a []
              (by simpa [length_pushAdj] using ha'),
            getD_undirected_diag _ a (by simpa [length_pushAdj] using ha'),
            getD_undirected_diag g.adjacent a ha']
        dsimp only [Graph.get_adjacent_vertices] at h2
        rw [h2'] at h2
        injection h2 with h2
        subst h2
        simp [List.count_append]
      · have h2' : (pushAdj (pushAdj (pushAdj (pushAdj g.adjacent a b) b a) a b) b a)[a]? =
            some (g.adjacent.getD a [] ++ [b] ++ [b]) := by
          rw [getElem?_eq_some_getD _ a []
              (by simpa [length_pushAdj] using ha'),
            getD_undirected_a _ a b (by simpa [length_pushAdj] using ha') hab,
            getD_undirected_a g.adjacent a b ha' hab]
        dsimp only [Graph.get_adjacent_vertices] at h2
        rw [h2'] at h2
        injection h2 with h2
        subst h2
        simp [List.count_append]
    · intro hab
      constructor
      · rw [hget]
        show (pushAdj (pushAdj (pushAdj (pushAdj g.adjacent a b) b a) a b) b a)[a]? = _
        rw [getElem?_eq_some_getD _ a [] (by simpa [length_pushAdj] using ha'),
          getD_undirected_a _ a b (by simpa [length_pushAdj] using ha') hab,
          getD_undirected_a g.adjacent a b ha' hab]
        simp [List.append_assoc]
      · intro
        rw [hgetb]
        show (pushAdj (pushAdj (pushAdj (pushAdj g.adjacent a b) b a) a b) b a)[b]? = _
        rw [getElem?_eq_some_getD _ b [] (by simpa [length_pushAdj] using hb'),
          getD_undirected_b _ a b (by simpa [length_pushAdj] using hb') hab,
          getD_undirected_b g.adjacent a b hb' hab]
        simp [List.append_assoc]

/-- Witness for C8: the edge `(0, 1)` added twice to a fresh 2-vertex
undirected graph. -/
theorem claim_C8_witness :
    addEdgeTwicePost ((Graph.new false).addVertexN 2) 0 1 :=
  claim_C8 ((Graph.new false).addVertexN 2) 0 1 (by decide)
    (by decide) (by decide)

/-- C10: For every graph built through `Graph::new`, `add_vertex`, and
`add_edge` with valid ids, the `Display` rendering never fails: every
`get_adjacent_vertices(v.id).unwrap()` inside the loop succeeds, so the
whole rendering produces a string. -/
theorem claim_C10 (g : Graph) (h : Reachable g) : ∃ s, g.display = some s := by
  obtain ⟨hlen, hids⟩ := reachable_wf g h
  obtain ⟨body, hbody⟩ := displayRows_isSome g g.vertices (fun v hv => by
    have h2 := idsFrom_mem_lt 0 g.vertices v hids hv
    omega)
  exact ⟨_, by unfold Graph.display; rw [hbody]; rfl⟩

/-- Witness for C10: the rendering of a one-vertex undirected graph. -/
theorem claim_C10_witness :
    ∃ s, (((Graph.new false).add_vertex).1).display = some s :=
  claim_C10 (((Graph.new false).add_vertex).1)
    (Reachable.step_add_vertex (Graph.new false) (Reachable.new false))
